import Mathlib

/-!
Verification of the ndsplines evaluation core (src/NDBPoly.py).

The Python source is shallowly embedded over exact rationals (ℚ stands for
the float values; all claims checked here are structural/index properties,
not rounding properties).  Vectorised numpy operations act elementwise
across the query batch, so the per-query functions below model one column
of the batch; batch-level aspects (workspace reuse, shapes) are modelled
explicitly where a claim needs them.
-/

namespace NDSplines

/-! ## Interval location: find_intervals (src/NDBPoly.py lines 26-83)

The numpy code builds a boolean matrix `test[j, i] = (t[j] <= x[i]) & (x[i] < t[j+1])`
for j = 0 .. len(t)-2, optionally ORs in the two extrapolation rows
(`test[k] |= x < t[k]` and `test[-k-1] |= t[-k-1] <= x`), and then performs
`ell[:] = -1; where = np.where(test); ell[where[1]] = where[0]`.
`np.where` enumerates indices in row-major (j-major) order, and a fancy
assignment with a repeated column index keeps the last written value, so
column i of `ell` receives the largest j whose test is true, or -1 when no
test is true.  Each query column is independent; we model one query. -/

/-- Natural half-open span test `t[j] <= x < t[j+1]` (row j of `test`). -/
def naturalTest (t : List ℚ) (x : ℚ) (j : ℕ) : Bool :=
  decide (t.getD j 0 ≤ x) && decide (x < t.getD (j+1) 0)

/-- Extrapolation rows: `test[k] |= (x < t[k])` and
`test[-k-1] |= (t[-k-1] <= x)`; row index `-k-1` of the `len(t)-1`-row test
matrix is `len(t)-k-2` and knot index `-k-1` is `len(t)-k-1`. -/
def forcedTest (t : List ℚ) (k : ℕ) (x : ℚ) (extrapolate : Bool) (j : ℕ) : Bool :=
  extrapolate &&
    ((j == k && decide (x < t.getD k 0)) ||
     (j == t.length - k - 2 && decide (t.getD (t.length - k - 1) 0 ≤ x)))

/-- Row j of the test matrix after the optional extrapolation ORs. -/
def intervalTest (t : List ℚ) (k : ℕ) (x : ℚ) (extrapolate : Bool) (j : ℕ) : Bool :=
  naturalTest t x j || forcedTest t k x extrapolate j

/-- Largest `j < m` with `p j = true`, else `-1`: the effect of
`ell[:] = -1; ell[where[1]] = where[0]` on one query column. -/
def lastTrue (p : ℕ → Bool) (m : ℕ) : ℤ :=
  (List.range m).foldl (fun acc j => if p j then (j : ℤ) else acc) (-1)

/-- One query column of `find_intervals(t, k, x, extrapolate)`. -/
def find_intervals (t : List ℚ) (k : ℕ) (x : ℚ) (extrapolate : Bool) : ℤ :=
  lastTrue (intervalTest t k x extrapolate) (t.length - 1)

lemma lastTrue_succ (p : ℕ → Bool) (m : ℕ) :
    lastTrue p (m+1) = if p m then (m : ℤ) else lastTrue p m := by
  unfold lastTrue
  rw [List.range_succ, List.foldl_append]
  rfl

lemma lastTrue_none (p : ℕ → Bool) (m : ℕ) (h : ∀ j, j < m → p j = false) :
    lastTrue p m = -1 := by
  induction m with
  | zero => rfl
  | succ m ih =>
      rw [lastTrue_succ, h m (Nat.lt_succ_self m)]
      simp only [if_false, Bool.false_eq_true]
      exact ih (fun j hj => h j (Nat.lt_succ_of_lt hj))

lemma lastTrue_found (p : ℕ → Bool) (m : ℕ) (h : ∃ j, j < m ∧ p j = true) :
    0 ≤ lastTrue p m ∧ (lastTrue p m).toNat < m ∧ p (lastTrue p m).toNat = true := by
  induction m with
  | zero => rcases h with ⟨j, hj, _⟩; exact absurd hj (Nat.not_lt_zero j)
  | succ m ih =>
      rw [lastTrue_succ]
      by_cases hm : p m = true
      · rw [hm]
        simp only [if_true]
        refine ⟨Int.ofNat_nonneg m, ?_, ?_⟩
        · rw [Int.toNat_natCast]; exact Nat.lt_succ_self m
        · rw [Int.toNat_natCast]; exact hm
      · rw [Bool.not_eq_true] at hm
        rw [hm]
        simp only [Bool.false_eq_true, if_false]
        have h' : ∃ j, j < m ∧ p j = true := by
          rcases h with ⟨j, hj, hpj⟩
          rcases Nat.lt_succ_iff_lt_or_eq.mp hj with hlt | rfl
          · exact ⟨j, hlt, hpj⟩
          · rw [hm] at hpj; exact absurd hpj (by simp)
        rcases ih h' with ⟨h1, h2, h3⟩
        exact ⟨h1, Nat.lt_succ_of_lt h2, h3⟩

lemma lastTrue_eq (p : ℕ → Bool) (m j₀ : ℕ) (hj : j₀ < m) (hp : p j₀ = true)
    (hmax : ∀ j, j₀ < j → j < m → p j = false) : lastTrue p m = j₀ := by
  induction m with
  | zero => exact absurd hj (Nat.not_lt_zero j₀)
  | succ m ih =>
      rw [lastTrue_succ]
      rcases Nat.lt_succ_iff_lt_or_eq.mp hj with hlt | rfl
      · rw [hmax m hlt (Nat.lt_succ_self m)]
        simp only [Bool.false_eq_true, if_false]
        exact ih hlt (fun j h1 h2 => hmax j h1 (Nat.lt_succ_of_lt h2))
      · rw [hp]; simp

lemma sorted_getD_mono (t : List ℚ) (hs : t.Sorted (· ≤ ·)) {a b : ℕ}
    (hab : a ≤ b) (hb : b < t.length) : t.getD a 0 ≤ t.getD b 0 := by
  rcases Nat.lt_or_ge a b with hlt | hge
  · have ha : a < t.length := lt_trans hlt hb
    rw [List.getD_eq_getElem?_getD, List.getD_eq_getElem?_getD,
      List.getElem?_eq_getElem ha, List.getElem?_eq_getElem hb]
    exact List.pairwise_iff_get.mp hs ⟨a, ha⟩ ⟨b, hb⟩ hlt
  · have : a = b := le_antisymm hab hge
    rw [this]

/-- For t with `t[0] <= x < t[last]`, some natural half-open span
contains x (take the largest j with `t[j] <= x`). -/
lemma exists_naturalTest (t : List ℚ) (x : ℚ)
    (hlen : 2 ≤ t.length) (h0 : t.getD 0 0 ≤ x) (hLast : x < t.getD (t.length - 1) 0) :
    ∃ j, j < t.length - 1 ∧ naturalTest t x j = true := by
  set j₀ : ℕ := Nat.findGreatest (fun j => t.getD j 0 ≤ x) (t.length - 2) with hj₀def
  have hPj₀ : t.getD j₀ 0 ≤ x := by
    rw [hj₀def]
    exact Nat.findGreatest_spec (P := fun j => t.getD j 0 ≤ x) (Nat.zero_le _) h0
  have hj₀b : j₀ ≤ t.length - 2 := by
    rw [hj₀def]
    exact Nat.findGreatest_le _
  refine ⟨j₀, by omega, ?_⟩
  have hx2 : x < t.getD (j₀ + 1) 0 := by
    rcases Nat.lt_or_ge j₀ (t.length - 2) with hlt | hge
    · by_contra hcon
      push_neg at hcon
      have hcon' : (fun j => t.getD j 0 ≤ x) (j₀ + 1) := hcon
      have hlt' : Nat.findGreatest (fun j => t.getD j 0 ≤ x) (t.length - 2) < j₀ + 1 := by
        rw [← hj₀def]; exact Nat.lt_succ_self j₀
      exact Nat.findGreatest_is_greatest hlt' (by omega) hcon'
    · have hj₀eq : j₀ + 1 = t.length - 1 := by omega
      rw [hj₀eq]; exact hLast
  unfold naturalTest
  rw [Bool.and_eq_true, decide_eq_true_iff, decide_eq_true_iff]
  exact ⟨hPj₀, hx2⟩

/-- Claim C1: for a non-decreasing knot vector t of length n+k+1 and a query
x in [t[k], t[n]), find_intervals (with either extrapolate flag) returns ell
with t[ell] <= x < t[ell+1]; in particular ell is not the -1 sentinel and the
selected span has positive width (zero-width spans are never selected). -/
theorem find_intervals_in_domain (t : List ℚ) (n k : ℕ) (x : ℚ) (e : Bool)
    (hs : t.Sorted (· ≤ ·)) (hlen : t.length = n + k + 1) (hkn : k < n)
    (hx1 : t.getD k 0 ≤ x) (hx2 : x < t.getD n 0) :
    0 ≤ find_intervals t k x e ∧
    t.getD (find_intervals t k x e).toNat 0 ≤ x ∧
    x < t.getD ((find_intervals t k x e).toNat + 1) 0 ∧
    t.getD (find_intervals t k x e).toNat 0 < t.getD ((find_intervals t k x e).toNat + 1) 0 := by
  have h2 : 2 ≤ t.length := by omega
  have h0 : t.getD 0 0 ≤ x :=
    le_trans (sorted_getD_mono t hs (Nat.zero_le k) (by omega)) hx1
  have hLast : x < t.getD (t.length - 1) 0 :=
    lt_of_lt_of_le hx2 (sorted_getD_mono t hs (by omega) (by omega))
  obtain ⟨j, hj, hnat⟩ := exists_naturalTest t x h2 h0 hLast
  have hfound := lastTrue_found (intervalTest t k x e) (t.length - 1)
    ⟨j, hj, by unfold intervalTest; rw [hnat]; rfl⟩
  rcases hfound with ⟨hge, hlt, htest⟩
  have hresnat : naturalTest t x (find_intervals t k x e).toNat = true := by
    show naturalTest t x (lastTrue (intervalTest t k x e) (t.length - 1)).toNat = true
    rcases Bool.or_eq_true _ _ |>.mp htest with hn | hf
    · exact hn
    · exfalso
      unfold forcedTest at hf
      rcases Bool.and_eq_true _ _ |>.mp hf with ⟨_, hf2⟩
      rcases Bool.or_eq_true _ _ |>.mp hf2 with hlo | hhi
      · rcases Bool.and_eq_true _ _ |>.mp hlo with ⟨_, hxlt⟩
        exact absurd hx1 (not_le.mpr (decide_eq_true_iff.mp hxlt))
      · rcases Bool.and_eq_true _ _ |>.mp hhi with ⟨_, hxge⟩
        have hnn : t.length - k - 1 = n := by omega
        rw [hnn] at hxge
        exact absurd hx2 (not_lt.mpr (decide_eq_true_iff.mp hxge))
  unfold naturalTest at hresnat
  rcases Bool.and_eq_true _ _ |>.mp hresnat with ⟨ha, hb⟩
  have ha' := decide_eq_true_iff.mp ha
  have hb' := decide_eq_true_iff.mp hb
  exact ⟨by unfold find_intervals; exact hge, ha', hb', lt_of_le_of_lt ha' hb'⟩

/-- Witness for C1: clamped knots [0,0,1,2,2] with k = 1, n = 3 and interior
query x = 3/2; the located span satisfies the half-open bracketing. -/
theorem find_intervals_in_domain_witness :
    0 ≤ find_intervals [0, 0, 1, 2, 2] 1 (3/2) false ∧
    [(0:ℚ), 0, 1, 2, 2].getD (find_intervals [0, 0, 1, 2, 2] 1 (3/2) false).toNat 0 ≤ 3/2 ∧
    (3/2 : ℚ) <
      [(0:ℚ), 0, 1, 2, 2].getD ((find_intervals [0, 0, 1, 2, 2] 1 (3/2) false).toNat + 1) 0 ∧
    [(0:ℚ), 0, 1, 2, 2].getD (find_intervals [0, 0, 1, 2, 2] 1 (3/2) false).toNat 0 <
      [(0:ℚ), 0, 1, 2, 2].getD ((find_intervals [0, 0, 1, 2, 2] 1 (3/2) false).toNat + 1) 0 :=
  find_intervals_in_domain [0, 0, 1, 2, 2] 3 1 (3/2) false
    (by norm_num [List.sorted_cons]) (by norm_num) (by norm_num)
    (by norm_num) (by norm_num)

lemma naturalTest_false_left (t : List ℚ) (x : ℚ) (j : ℕ) (hne : ¬ t.getD j 0 ≤ x) :
    naturalTest t x j = false := by
  unfold naturalTest
  rw [decide_eq_false_iff_not.mpr hne]
  rfl

lemma naturalTest_false_right (t : List ℚ) (x : ℚ) (j : ℕ) (hne : ¬ x < t.getD (j+1) 0) :
    naturalTest t x j = false := by
  unfold naturalTest
  rw [decide_eq_false_iff_not.mpr hne, Bool.and_false]

lemma intervalTest_false (t : List ℚ) (k : ℕ) (x : ℚ) (e : Bool) (j : ℕ)
    (hn : naturalTest t x j = false) (hf : forcedTest t k x e j = false) :
    intervalTest t k x e j = false := by
  unfold intervalTest
  rw [hn, hf]
  rfl

/-- Claim C2 (amended): out-of-domain behaviour of find_intervals.
With extrapolate=False the -1 sentinel is produced exactly when x lies in no
knot span at all, i.e. x < t[0] or x >= t[last]; a query outside [t[k], t[n])
but inside the full knot range still receives its containing span, not -1.
With extrapolate=True, x < t[k] resolves to span k; x >= t[n] resolves to
span n-1 provided the knots past t[n] are all equal to it (t[n] = t[n+k],
e.g. clamped ends) — for a knot vector with non-degenerate spans past t[n]
the largest containing span (which exceeds n-1) is returned instead. -/
theorem find_intervals_out_of_domain (t : List ℚ) (n k : ℕ) (x : ℚ)
    (hs : t.Sorted (· ≤ ·)) (hlen : t.length = n + k + 1) (hkn : k < n) :
    (find_intervals t k x false = -1 ↔ (x < t.getD 0 0 ∨ t.getD (t.length - 1) 0 ≤ x)) ∧
    (x < t.getD k 0 → find_intervals t k x true = k) ∧
    (t.getD n 0 ≤ x → t.getD n 0 = t.getD (t.length - 1) 0 →
      find_intervals t k x true = (n : ℤ) - 1) := by
  refine ⟨⟨?_, ?_⟩, ?_, ?_⟩
  · -- sentinel implies outside the full knot range
    intro h
    by_contra hcon
    push_neg at hcon
    obtain ⟨h0, hLast⟩ := hcon
    obtain ⟨j, hj, hnat⟩ := exists_naturalTest t x (by omega) h0 hLast
    have hfound := lastTrue_found (intervalTest t k x false) (t.length - 1)
      ⟨j, hj, by unfold intervalTest; rw [hnat]; rfl⟩
    have : (0 : ℤ) ≤ -1 := by
      have h1 := hfound.1
      unfold find_intervals at h
      rw [h] at h1
      exact h1
    norm_num at this
  · -- outside the full knot range implies the sentinel
    intro h
    apply lastTrue_none
    intro j hj
    apply intervalTest_false
    · rcases h with hlo | hhi
      · exact naturalTest_false_left t x j (fun hc =>
          absurd (le_trans (sorted_getD_mono t hs (Nat.zero_le j) (by omega)) hc)
            (not_le.mpr hlo))
      · exact naturalTest_false_right t x j (fun hc =>
          absurd (lt_of_lt_of_le hc (sorted_getD_mono t hs (by omega) (by omega)))
            (not_lt.mpr hhi))
    · rfl
  · -- below the lower bound with extrapolation: span k
    intro hx
    apply lastTrue_eq (intervalTest t k x true) (t.length - 1) k (by omega)
    · have hd : decide (x < t.getD k 0) = true := by
        simp only [decide_eq_true_eq]
        exact hx
      unfold intervalTest forcedTest
      rw [hd]
      simp only [beq_self_eq_true, Bool.and_true, Bool.true_and, Bool.true_or, Bool.or_true]
    · intro j hkj hjm
      apply intervalTest_false
      · exact naturalTest_false_left t x j (fun hc =>
          absurd (le_trans (sorted_getD_mono t hs (le_of_lt hkj) (by omega)) hc)
            (not_le.mpr hx))
      · unfold forcedTest
        have h1 : (j == k) = false := by
          simp only [beq_eq_false_iff_ne, ne_eq]
          omega
        have h2 : decide (t.getD (t.length - k - 1) 0 ≤ x) = false := by
          rw [decide_eq_false_iff_not]
          intro hc
          exact absurd hx
            (not_lt.mpr (le_trans (sorted_getD_mono t hs (by omega) (by omega)) hc))
        rw [h1, h2]
        simp only [Bool.false_and, Bool.and_false, Bool.or_false, Bool.false_or,
          Bool.and_self, Bool.true_and]
  · -- above the upper bound with extrapolation and degenerate trailing knots: span n-1
    intro hx hEq
    have hcast : ((n - 1 : ℕ) : ℤ) = (n : ℤ) - 1 := by omega
    rw [← hcast]
    apply lastTrue_eq (intervalTest t k x true) (t.length - 1) (n - 1) (by omega)
    · have hidx : t.length - k - 2 = n - 1 := by omega
      have hidx2 : t.length - k - 1 = n := by omega
      have hd : decide (t.getD (t.length - k - 1) 0 ≤ x) = true := by
        rw [hidx2]
        simp only [decide_eq_true_eq]
        exact hx
      unfold intervalTest forcedTest
      rw [hd, hidx]
      simp only [beq_self_eq_true, Bool.and_true, Bool.true_and, Bool.true_or, Bool.or_true]
    · intro j hnj hjm
      apply intervalTest_false
      · refine naturalTest_false_right t x j (not_lt.mpr ?_)
        calc t.getD (j+1) 0 ≤ t.getD (t.length - 1) 0 :=
              sorted_getD_mono t hs (by omega) (by omega)
          _ = t.getD n 0 := hEq.symm
          _ ≤ x := hx
      · unfold forcedTest
        have h1 : (j == k) = false := by
          simp only [beq_eq_false_iff_ne, ne_eq]
          omega
        have h2 : (j == t.length - k - 2) = false := by
          simp only [beq_eq_false_iff_ne, ne_eq]
          omega
        rw [h1, h2]
        simp only [Bool.false_and, Bool.and_false, Bool.or_false, Bool.false_or,
          Bool.or_self, Bool.and_self, Bool.true_and]

/-- Counterexample to claim C2 as stated: on the non-decreasing (uniform,
non-clamped) knot vector t = [0,1,2,3] with k = 1 (so n = 2, domain
[t[1], t[2]) = [1,2)), the query x = 1/2 < t[1] with extrapolate=False
yields span 0, not the claimed -1 sentinel, and the query x = 5/2 >= t[2]
with extrapolate=True yields span 2, not the claimed n-1 = 1. -/
theorem find_intervals_out_of_domain_cex :
    find_intervals [0, 1, 2, 3] 1 (1/2) false = 0 ∧
    find_intervals [0, 1, 2, 3] 1 (5/2) true = 2 := by
  constructor <;>
    norm_num [find_intervals, lastTrue, intervalTest, naturalTest, forcedTest, List.range_succ]

/-- Witness for the amended claim C2, on the clamped knot vector
[0,0,1,2,2] with k = 1, n = 3, x = 5/2. -/
theorem find_intervals_out_of_domain_witness :
    (find_intervals [0, 0, 1, 2, 2] 1 (5/2) false = -1 ↔
      ((5/2 : ℚ) < [(0:ℚ), 0, 1, 2, 2].getD 0 0 ∨
        [(0:ℚ), 0, 1, 2, 2].getD ([(0:ℚ), 0, 1, 2, 2].length - 1) 0 ≤ 5/2)) ∧
    ((5/2 : ℚ) < [(0:ℚ), 0, 1, 2, 2].getD 1 0 →
      find_intervals [0, 0, 1, 2, 2] 1 (5/2) true = 1) ∧
    ([(0:ℚ), 0, 1, 2, 2].getD 3 0 ≤ 5/2 →
      [(0:ℚ), 0, 1, 2, 2].getD 3 0 = [(0:ℚ), 0, 1, 2, 2].getD ([(0:ℚ), 0, 1, 2, 2].length - 1) 0 →
      find_intervals [0, 0, 1, 2, 2] 1 (5/2) true = (3 : ℤ) - 1) :=
  find_intervals_out_of_domain [0, 0, 1, 2, 2] 3 1 (5/2)
    (by norm_num [List.sorted_cons]) (by norm_num) (by norm_num)

/-! ## Basis evaluation: eval_bases (src/NDBPoly.py lines 86-172)

The de Boor recursion operates on a workspace split into `u` (rows 0..k),
`w` (rows k+1..2k, i.e. k rows) and two bound rows.  `w[0] = 1` is written
on the otherwise uninitialised workspace (np.empty), then a value-form pass
runs degrees j = 1..k-nu and a difference-form pass runs the remaining
Python range(k-nu+1, k+1) — which for nu > k starts at a non-positive j and
always has exactly nu iterations, the non-positive degrees only executing
`u[0] = 0` and `w[:] = u[:k]`.  Each inner step reads the knot pair
`xb = t[ell+n]`, `xa = t[ell+n-j]`; a degenerate pair (xb == xa) writes
`u[n] = 0` and performs no division, otherwise the divisor `xb - xa` is
used to form tau.  We record every divisor actually used in `divs`.
Everything is per query column; the initial contents of `u` and of `w`
above row 0 are arbitrary parameters, modelling np.empty garbage.

Error path: the w slice has exactly k rows, so for k = 0 the very first
statement `w[0,...] = 1.0` (line 130) raises IndexError and nothing below
runs; `eval_bases_run` further down models this raise as none, and
`eval_bases_state` describes the k >= 1 behaviour.  For the division
instrumentation this is conservative: every division the program performs
(it performs none at all when k = 0) is recorded in `divs`. -/

/-- Knot access `t[i]` with numpy semantics for negative indices
(wrap-around); out-of-range access defaults (theorems only use in-range
indices). -/
def tAt (t : List ℚ) (i : ℤ) : ℚ :=
  if 0 ≤ i then t.getD i.toNat 0 else t.getD (t.length - (-i).toNat) 0

/-- Workspace state of eval_bases for one query column: the u rows, the w
rows, and the list of divisors used so far (instrumentation for the
division-by-zero claim). -/
structure DB where
  u : ℕ → ℚ
  w : ℕ → ℚ
  divs : List ℚ

/-- Inner step of the value-form pass (source lines 134-148) at degree j,
local index n: degenerate knot pair writes u[n] = 0 and skips the division;
otherwise tau = w[n-1]/(xb-xa), u[n-1] += tau*(xb-x), u[n] = tau*(x-xa). -/
def dbInner1 (t : List ℚ) (x : ℚ) (ell : ℤ) (j : ℕ) (st : DB) (n : ℕ) : DB :=
  if tAt t (ell + n) = tAt t (ell + n - j) then
    { st with u := Function.update st.u n 0 }
  else
    { st with
        u := Function.update
              (Function.update st.u (n-1)
                (st.u (n-1) +
                  st.w (n-1) / (tAt t (ell + n) - tAt t (ell + n - j)) * (tAt t (ell + n) - x)))
              n
              (st.w (n-1) / (tAt t (ell + n) - tAt t (ell + n - j)) * (x - tAt t (ell + n - j))),
        divs := st.divs ++ [tAt t (ell + n) - tAt t (ell + n - j)] }

/-- The `w[:] = u[:k].copy()` step closing every degree (w has k rows). -/
def dbMergeW (k : ℕ) (st : DB) : DB :=
  { st with w := fun m => if m < k then st.u m else st.w m }

/-- One degree j of the value-form pass: u[0] = 0, the inner loop over
n = 1..j, then the w copy. -/
def dbDegree1 (t : List ℚ) (x : ℚ) (ell : ℤ) (k : ℕ) (j : ℕ) (st : DB) : DB :=
  dbMergeW k ((List.range j).foldl (fun s i => dbInner1 t x ell j s (i+1))
    { st with u := Function.update st.u 0 0 })

/-- Inner step of the difference-form pass (source lines 155-167) at degree
j, local index n: degenerate knot pair writes u[n] = 0 and skips the
division; otherwise tau = j*w[n-1]/(xb-xa), u[n-1] -= tau, u[n] = tau. -/
def dbInner2 (t : List ℚ) (x : ℚ) (ell : ℤ) (j : ℤ) (st : DB) (n : ℕ) : DB :=
  if tAt t (ell + n) = tAt t (ell + n - j) then
    { st with u := Function.update st.u n 0 }
  else
    { st with
        u := Function.update
              (Function.update st.u (n-1)
                (st.u (n-1) - (j : ℚ) * st.w (n-1) / (tAt t (ell + n) - tAt t (ell + n - j))))
              n
              ((j : ℚ) * st.w (n-1) / (tAt t (ell + n) - tAt t (ell + n - j))),
        divs := st.divs ++ [tAt t (ell + n) - tAt t (ell + n - j)] }

/-- One degree j (an integer: Python range(k-nu+1, k+1) can start at a
non-positive value) of the difference-form pass: u[0] = 0, the inner loop
over n = 1..j (empty when j <= 0, matching Python range(1, j+1)), then the
w copy. -/
def dbDegree2 (t : List ℚ) (x : ℚ) (ell : ℤ) (k : ℕ) (j : ℤ) (st : DB) : DB :=
  dbMergeW k ((List.range j.toNat).foldl (fun s i => dbInner2 t x ell j s (i+1))
    { st with u := Function.update st.u 0 0 })

/-- Full eval_bases workspace computation for one query column, starting
from arbitrary (np.empty) contents u0, w0 with w[0] set to 1. -/
def eval_bases_state (t : List ℚ) (k : ℕ) (x : ℚ) (ell : ℤ) (nu : ℕ)
    (u0 w0 : ℕ → ℚ) : DB :=
  (List.range nu).foldl
    (fun s (i : ℕ) => dbDegree2 t x ell k ((k : ℤ) - (nu : ℤ) + 1 + (i : ℤ)) s)
    ((List.range (k - nu)).foldl (fun s (i : ℕ) => dbDegree1 t x ell k (i+1) s)
      { u := u0, w := Function.update w0 0 1, divs := [] })

/-- The u rows (indices 0..k are the returned basis values). -/
def eval_bases (t : List ℚ) (k : ℕ) (x : ℚ) (ell : ℤ) (nu : ℕ)
    (u0 w0 : ℕ → ℚ) : ℕ → ℚ :=
  (eval_bases_state t k x ell nu u0 w0).u

lemma foldl_divs_preserve {β : Type*} (f : DB → β → DB) (l : List β) (a : DB)
    (h : ∀ d ∈ a.divs, d ≠ 0)
    (hstep : ∀ c b, (∀ d ∈ c.divs, d ≠ 0) → ∀ d ∈ (f c b).divs, d ≠ 0) :
    ∀ d ∈ (l.foldl f a).divs, d ≠ 0 := by
  induction l generalizing a with
  | nil => exact h
  | cons b bs ih => exact ih _ (hstep a b h)

lemma dbInner1_divs (t : List ℚ) (x : ℚ) (ell : ℤ) (j : ℕ) (st : DB) (n : ℕ)
    (h : ∀ d ∈ st.divs, d ≠ 0) : ∀ d ∈ (dbInner1 t x ell j st n).divs, d ≠ 0 := by
  unfold dbInner1
  by_cases hc : tAt t (ell + n) = tAt t (ell + n - j)
  · rw [if_pos hc]
    exact h
  · rw [if_neg hc]
    intro d hd
    rcases List.mem_append.mp hd with hd1 | hd2
    · exact h d hd1
    · rw [List.mem_singleton.mp hd2]
      exact sub_ne_zero.mpr hc

lemma dbInner2_divs (t : List ℚ) (x : ℚ) (ell : ℤ) (j : ℤ) (st : DB) (n : ℕ)
    (h : ∀ d ∈ st.divs, d ≠ 0) : ∀ d ∈ (dbInner2 t x ell j st n).divs, d ≠ 0 := by
  unfold dbInner2
  by_cases hc : tAt t (ell + n) = tAt t (ell + n - j)
  · rw [if_pos hc]
    exact h
  · rw [if_neg hc]
    intro d hd
    rcases List.mem_append.mp hd with hd1 | hd2
    · exact h d hd1
    · rw [List.mem_singleton.mp hd2]
      exact sub_ne_zero.mpr hc

lemma dbMergeW_divs (k : ℕ) (st : DB) : (dbMergeW k st).divs = st.divs := rfl

lemma dbDegree1_divs (t : List ℚ) (x : ℚ) (ell : ℤ) (k j : ℕ) (st : DB)
    (h : ∀ d ∈ st.divs, d ≠ 0) : ∀ d ∈ (dbDegree1 t x ell k j st).divs, d ≠ 0 := by
  unfold dbDegree1
  rw [dbMergeW_divs]
  exact foldl_divs_preserve _ _ _ h (fun c b hc => dbInner1_divs t x ell j c (b+1) hc)

lemma dbDegree2_divs (t : List ℚ) (x : ℚ) (ell : ℤ) (k : ℕ) (j : ℤ) (st : DB)
    (h : ∀ d ∈ st.divs, d ≠ 0) : ∀ d ∈ (dbDegree2 t x ell k j st).divs, d ≠ 0 := by
  unfold dbDegree2
  rw [dbMergeW_divs]
  exact foldl_divs_preserve _ _ _ h (fun c b hc => dbInner2_divs t x ell j c (b+1) hc)

/-- Claim C4: every division performed anywhere in eval_bases (value pass or
difference pass, any degree, any derivative order, any workspace garbage)
has a nonzero divisor: a degenerate knot pair (xb = xa) writes the basis
entry to zero and skips the division, so eval_bases never divides by zero. -/
theorem eval_bases_no_div_by_zero (t : List ℚ) (k : ℕ) (x : ℚ) (ell : ℤ) (nu : ℕ)
    (u0 w0 : ℕ → ℚ) :
    ∀ d ∈ (eval_bases_state t k x ell nu u0 w0).divs, d ≠ 0 := by
  unfold eval_bases_state
  apply foldl_divs_preserve
  · apply foldl_divs_preserve
    · intro d hd
      exact absurd hd (List.not_mem_nil d)
    · intro c b hc
      exact dbDegree1_divs t x ell k (b+1) c hc
  · intro c b hc
    exact dbDegree2_divs t x ell k _ c hc

/-- Witness for C4: on t = [0,0,1,2] with k = 1, ell = 1, nu = 0 the single
division uses divisor t[2]-t[1] = 1, which is indeed nonzero. -/
theorem eval_bases_no_div_by_zero_witness :
    (1 : ℚ) ∈ (eval_bases_state [0, 0, 1, 2] 1 0 1 0 (fun _ => 0) (fun _ => 0)).divs ∧
    (1 : ℚ) ≠ 0 :=
  ⟨by simp [eval_bases_state, dbDegree1, dbInner1, dbMergeW, tAt, List.range_succ],
   eval_bases_no_div_by_zero [0, 0, 1, 2] 1 0 1 0 (fun _ => 0) (fun _ => 0) 1
    (by simp [eval_bases_state, dbDegree1, dbInner1, dbMergeW, tAt, List.range_succ])⟩

/-- Python float modulo: a % b = a - b*floor(a/b); for b > 0 the result is
in [0, b). -/
def pymod (a b : ℚ) : ℚ := a - b * ⌊a / b⌋

lemma pymod_bounds (a b : ℚ) (hb : 0 < b) : 0 ≤ pymod a b ∧ pymod a b < b := by
  unfold pymod
  have h3 : b * (a / b) = a := by field_simp
  constructor
  · have h1 : ((⌊a / b⌋ : ℚ)) ≤ a / b := Int.floor_le _
    have h2 : b * ((⌊a / b⌋ : ℚ)) ≤ b * (a / b) := mul_le_mul_of_nonneg_left h1 (le_of_lt hb)
    linarith
  · have h1 : a / b < (⌊a / b⌋ : ℚ) + 1 := Int.lt_floor_add_one _
    have h2 : b * (a / b) < b * ((⌊a / b⌋ : ℚ) + 1) := mul_lt_mul_of_pos_left h1 hb
    rw [mul_add, mul_one] at h2
    linarith

lemma pymod_add_right (a b : ℚ) (hb : b ≠ 0) : pymod (a + b) b = pymod a b := by
  unfold pymod
  have h : (a + b) / b = a / b + 1 := by
    rw [add_div, div_self hb]
  rw [h, Int.floor_add_one]
  push_cast
  ring

/-- The evaluator state fixed at construction (NDBPoly.__init__): per-axis
knot vectors and orders, per-axis periodic flag, per-axis (lower, upper)
extrapolate flags, and the coefficient tensor (leading output dimension
mdim), modelled as a total function of the gathered multi-index. -/
structure NDSpline (ndim mdim : ℕ) where
  knots : Fin ndim → List ℚ
  orders : Fin ndim → ℕ
  periodic : Fin ndim → Bool
  extrap : Fin ndim → Bool × Bool
  coeffs : Fin mdim → (Fin ndim → ℤ) → ℚ

/-- Lower clamp (lines 249-251): when lower extrapolation is off, values
below t[k] are replaced by t[k]. -/
def axisClampLo (t : List ℚ) (k : ℕ) (exLo : Bool) (v : ℚ) : ℚ :=
  if exLo = false ∧ v < t.getD k 0 then t.getD k 0 else v

/-- Upper clamp (lines 252-254): when upper extrapolation is off, values
strictly above t[-k-1] = t[n] are replaced by t[n]. -/
def axisClampHi (t : List ℚ) (k : ℕ) (exHi : Bool) (v : ℚ) : ℚ :=
  if exHi = false ∧ t.getD (t.length - k - 1) 0 < v then t.getD (t.length - k - 1) 0 else v

/-- Per-axis boundary policy applied to the coordinates in
get_us_and_cc_sel (lines 243-255): periodic remap
t[k] + (v - t[k]) % (t[n] - t[k]), else the two sequential clamps. -/
def axisTransform (t : List ℚ) (k : ℕ) (per exLo exHi : Bool) (v : ℚ) : ℚ :=
  match per with
  | true => t.getD k 0 + pymod (v - t.getD k 0) (t.getD (t.length - k - 1) 0 - t.getD k 0)
  | false => axisClampHi t k exHi (axisClampLo t k exLo v)

/-- Extrapolate flag handed to interval location (lines 246 and 255):
False for a periodic axis, True otherwise. -/
def axisExtrapFlag (per : Bool) : Bool := !per

/-- Boundary-transformed coordinate of axis i. -/
def sTransform {nd md : ℕ} (S : NDSpline nd md) (i : Fin nd) (v : ℚ) : ℚ :=
  axisTransform (S.knots i) (S.orders i) (S.periodic i) (S.extrap i).1 (S.extrap i).2 v

/-- Modelled from the spec: scipy_bspl.evaluate_spline (line 260) is not in
src/; per spec section 4.4 step 2 it runs IntervalLocator then BasisEvaluator
(possibly fused), which the commented-out source lines 247/256/263 equate
with this repository's own find_intervals and eval_bases.  Span index of
axis i for the transformed coordinate. -/
def axisEll {nd md : ℕ} (S : NDSpline nd md) (i : Fin nd) (v : ℚ) : ℤ :=
  find_intervals (S.knots i) (S.orders i) (sTransform S i v) (axisExtrapFlag (S.periodic i))

/-- Modelled from the spec (same note as axisEll): the k+1 basis values of
axis i at the transformed coordinate, derivative order nu. -/
def axisBasis {nd md : ℕ} (S : NDSpline nd md) (i : Fin nd) (nu : ℕ) (v : ℚ) : ℕ → ℚ :=
  eval_bases (S.knots i) (S.orders i) (sTransform S i v) (axisEll S i v) nu
    (fun _ => 0) (fun _ => 0)

/-- One query point of NDBPoly.__call__ (lines 289-308): per-axis boundary
transform, span location and basis evaluation; absolute coefficient indices
cc_sel_base + ell - k (line 265); gather and einsum contraction
(lines 296-305) written as the explicit multilinear sum over the local
offsets 0..k_i of every axis. -/
def ndEval {nd md : ℕ} (S : NDSpline nd md) (nus : Fin nd → ℕ) (x : Fin nd → ℚ)
    (m : Fin md) : ℚ :=
  ∑ o : (∀ i, Fin (S.orders i + 1)),
    S.coeffs m (fun i => axisEll S i (x i) + ((o i).val : ℤ) - (S.orders i : ℤ)) *
    ∏ i, axisBasis S i (nus i) (x i) (o i).val

/-- Evaluation depends on the coordinates only through the per-axis
boundary transform. -/
lemma ndEval_congr_of_transform {nd md : ℕ} (S : NDSpline nd md) (nus : Fin nd → ℕ)
    (x y : Fin nd → ℚ) (h : ∀ j, sTransform S j (x j) = sTransform S j (y j)) :
    ndEval S nus x = ndEval S nus y := by
  have hEll : ∀ j, axisEll S j (x j) = axisEll S j (y j) := by
    intro j
    unfold axisEll
    rw [h j]
  have hBasis : ∀ j, axisBasis S j (nus j) (x j) = axisBasis S j (nus j) (y j) := by
    intro j
    unfold axisBasis
    rw [h j, hEll j]
  funext m
  unfold ndEval
  refine Finset.sum_congr rfl (fun o _ => ?_)
  have h1 : (fun i => axisEll S i (x i) + ((o i).val : ℤ) - (S.orders i : ℤ)) =
      (fun i => axisEll S i (y i) + ((o i).val : ℤ) - (S.orders i : ℤ)) := by
    funext i
    rw [hEll i]
  have h2 : (∏ i, axisBasis S i (nus i) (x i) (o i).val) =
      ∏ i, axisBasis S i (nus i) (y i) (o i).val :=
    Finset.prod_congr rfl (fun i _ => by rw [hBasis i])
  rw [h1, h2]

/-- Claim C5: on a periodic axis i the coordinate is remapped into
[t[k], t[n]) via t[k] + (v - t[k]) mod (t[n] - t[k]), extrapolation is
disabled for that axis, and evaluating at x and at x shifted by the domain
length L = t[n] - t[k] on axis i gives identical output. -/
theorem ndEval_periodic (nd md : ℕ) (S : NDSpline nd md) (nus : Fin nd → ℕ)
    (x : Fin nd → ℚ) (i : Fin nd) (hper : S.periodic i = true)
    (hL : (S.knots i).getD (S.orders i) 0 <
      (S.knots i).getD ((S.knots i).length - S.orders i - 1) 0) :
    ((S.knots i).getD (S.orders i) 0 ≤ sTransform S i (x i) ∧
      sTransform S i (x i) < (S.knots i).getD ((S.knots i).length - S.orders i - 1) 0) ∧
    axisExtrapFlag (S.periodic i) = false ∧
    ndEval S nus (Function.update x i (x i +
      ((S.knots i).getD ((S.knots i).length - S.orders i - 1) 0 -
        (S.knots i).getD (S.orders i) 0))) = ndEval S nus x := by
  have hLpos : 0 < (S.knots i).getD ((S.knots i).length - S.orders i - 1) 0 -
      (S.knots i).getD (S.orders i) 0 := sub_pos.mpr hL
  have htr : ∀ v : ℚ, sTransform S i v = (S.knots i).getD (S.orders i) 0 +
      pymod (v - (S.knots i).getD (S.orders i) 0)
        ((S.knots i).getD ((S.knots i).length - S.orders i - 1) 0 -
          (S.knots i).getD (S.orders i) 0) := by
    intro v
    unfold sTransform axisTransform
    rw [hper]
  refine ⟨?_, ?_, ?_⟩
  · rw [htr (x i)]
    rcases pymod_bounds (x i - (S.knots i).getD (S.orders i) 0) _ hLpos with ⟨hb1, hb2⟩
    constructor
    · linarith
    · linarith
  · rw [axisExtrapFlag, hper]
    rfl
  · apply ndEval_congr_of_transform
    intro j
    by_cases hj : j = i
    · subst hj
      rw [Function.update_same, htr, htr]
      have harg : x j +
          ((S.knots j).getD ((S.knots j).length - S.orders j - 1) 0 -
            (S.knots j).getD (S.orders j) 0) - (S.knots j).getD (S.orders j) 0 =
          (x j - (S.knots j).getD (S.orders j) 0) +
          ((S.knots j).getD ((S.knots j).length - S.orders j - 1) 0 -
            (S.knots j).getD (S.orders j) 0) := by ring
      rw [harg, pymod_add_right _ _ (ne_of_gt hLpos)]
    · rw [Function.update_noteq hj]

/-- Witness for C5: a one-axis periodic spline on clamped knots [0,0,1,2,2]
(k = 1, domain [0,2), L = 2) evaluated at 1/2 and at 1/2 + 2. -/
theorem ndEval_periodic_witness :
    let S : NDSpline 1 1 :=
      { knots := fun _ => [0, 0, 1, 2, 2], orders := fun _ => 1,
        periodic := fun _ => true, extrap := fun _ => (true, true),
        coeffs := fun _ _ => 1 }
    ((S.knots 0).getD (S.orders 0) 0 ≤ sTransform S 0 ((fun _ => (1:ℚ)/2) 0) ∧
      sTransform S 0 ((fun _ => (1:ℚ)/2) 0) <
        (S.knots 0).getD ((S.knots 0).length - S.orders 0 - 1) 0) ∧
    axisExtrapFlag (S.periodic 0) = false ∧
    ndEval S (fun _ => 0) (Function.update (fun _ => (1:ℚ)/2) 0 ((fun _ => (1:ℚ)/2) 0 +
      ((S.knots 0).getD ((S.knots 0).length - S.orders 0 - 1) 0 -
        (S.knots 0).getD (S.orders 0) 0))) = ndEval S (fun _ => 0) (fun _ => (1:ℚ)/2) := by
  intro S
  exact ndEval_periodic 1 1 S (fun _ => 0) (fun _ => (1:ℚ)/2) 0 rfl (by norm_num)

/-- Claim C6: on a non-periodic axis whose upper extrapolation flag is off,
a coordinate beyond the upper domain bound t[n] is replaced by t[n] before
interval location (value substitution, no error), so evaluation beyond the
upper bound equals evaluation exactly at the upper bound. -/
theorem ndEval_upper_clamp (nd md : ℕ) (S : NDSpline nd md) (nus : Fin nd → ℕ)
    (x : Fin nd → ℚ) (i : Fin nd) (hper : S.periodic i = false)
    (hexHi : (S.extrap i).2 = false)
    (hkn : (S.knots i).getD (S.orders i) 0 ≤
      (S.knots i).getD ((S.knots i).length - S.orders i - 1) 0)
    (hx : (S.knots i).getD ((S.knots i).length - S.orders i - 1) 0 < x i) :
    sTransform S i (x i) = (S.knots i).getD ((S.knots i).length - S.orders i - 1) 0 ∧
    ndEval S nus x = ndEval S nus
      (Function.update x i ((S.knots i).getD ((S.knots i).length - S.orders i - 1) 0)) := by
  have htr : ∀ v : ℚ, sTransform S i v =
      axisClampHi (S.knots i) (S.orders i) (S.extrap i).2
        (axisClampLo (S.knots i) (S.orders i) (S.extrap i).1 v) := by
    intro v
    unfold sTransform axisTransform
    rw [hper]
  have hxtr : sTransform S i (x i) =
      (S.knots i).getD ((S.knots i).length - S.orders i - 1) 0 := by
    rw [htr]
    have hlo : axisClampLo (S.knots i) (S.orders i) (S.extrap i).1 (x i) = x i := by
      unfold axisClampLo
      rw [if_neg]
      intro hcon
      exact absurd (lt_of_le_of_lt hkn hx) (not_lt.mpr (le_of_lt hcon.2))
    rw [hlo]
    unfold axisClampHi
    rw [if_pos ⟨hexHi, hx⟩]
  have hbtr : sTransform S i ((S.knots i).getD ((S.knots i).length - S.orders i - 1) 0) =
      (S.knots i).getD ((S.knots i).length - S.orders i - 1) 0 := by
    rw [htr]
    have hlo : axisClampLo (S.knots i) (S.orders i) (S.extrap i).1
        ((S.knots i).getD ((S.knots i).length - S.orders i - 1) 0) =
        (S.knots i).getD ((S.knots i).length - S.orders i - 1) 0 := by
      unfold axisClampLo
      rw [if_neg]
      intro hcon
      exact absurd hkn (not_le.mpr hcon.2)
    rw [hlo]
    unfold axisClampHi
    rw [if_neg]
    intro hcon
    exact absurd hcon.2 (lt_irrefl _)
  refine ⟨hxtr, ?_⟩
  apply ndEval_congr_of_transform
  intro j
  by_cases hj : j = i
  · subst hj
    rw [Function.update_same, hxtr, hbtr]
  · rw [Function.update_noteq hj]

/-- Witness for C6: one-axis spline on [0,0,1,2,2] with upper extrapolation
off, evaluated at 3 versus at the upper bound 2. -/
theorem ndEval_upper_clamp_witness :
    let S : NDSpline 1 1 :=
      { knots := fun _ => [0, 0, 1, 2, 2], orders := fun _ => 1,
        periodic := fun _ => false, extrap := fun _ => (true, false),
        coeffs := fun _ _ => 1 }
    sTransform S 0 ((fun _ => (3:ℚ)) 0) =
      (S.knots 0).getD ((S.knots 0).length - S.orders 0 - 1) 0 ∧
    ndEval S (fun _ => 0) (fun _ => (3:ℚ)) = ndEval S (fun _ => 0)
      (Function.update (fun _ => (3:ℚ)) 0
        ((S.knots 0).getD ((S.knots 0).length - S.orders 0 - 1) 0)) := by
  intro S
  exact ndEval_upper_clamp 1 1 S (fun _ => 0) (fun _ => (3:ℚ)) 0 rfl rfl
    (by norm_num) (by norm_num)

lemma intervalTest_lo_true (t : List ℚ) (k : ℕ) (v : ℚ) (h : v < t.getD k 0) :
    intervalTest t k v true k = true := by
  have hd : decide (v < t.getD k 0) = true := by
    simp only [decide_eq_true_eq]
    exact h
  unfold intervalTest forcedTest
  rw [hd]
  simp only [beq_self_eq_true, Bool.and_true, Bool.true_and, Bool.true_or, Bool.or_true]

lemma intervalTest_hi_true (t : List ℚ) (n k : ℕ) (v : ℚ) (hlen : t.length = n + k + 1)
    (hn : 1 ≤ n) (h : t.getD n 0 ≤ v) : intervalTest t k v true (n - 1) = true := by
  have hidx : t.length - k - 2 = n - 1 := by omega
  have hidx2 : t.length - k - 1 = n := by omega
  have hd : decide (t.getD (t.length - k - 1) 0 ≤ v) = true := by
    rw [hidx2]
    simp only [decide_eq_true_eq]
    exact h
  unfold intervalTest forcedTest
  rw [hd, hidx]
  simp only [beq_self_eq_true, Bool.and_true, Bool.true_and, Bool.true_or, Bool.or_true]

/-- With extrapolation on, some test row is always true, for any query. -/
lemma find_intervals_extrap_nonneg (t : List ℚ) (n k : ℕ) (v : ℚ)
    (hs : t.Sorted (· ≤ ·)) (hlen : t.length = n + k + 1) (hkn : k < n) :
    0 ≤ find_intervals t k v true := by
  by_cases h1 : v < t.getD k 0
  · exact (lastTrue_found _ _ ⟨k, by omega, intervalTest_lo_true t k v h1⟩).1
  · by_cases h2 : v < t.getD n 0
    · push_neg at h1
      have h0 : t.getD 0 0 ≤ v := le_trans (sorted_getD_mono t hs (Nat.zero_le k) (by omega)) h1
      have hLast : v < t.getD (t.length - 1) 0 :=
        lt_of_lt_of_le h2 (sorted_getD_mono t hs (by omega) (by omega))
      obtain ⟨j, hj, hnat⟩ := exists_naturalTest t v (by omega) h0 hLast
      exact (lastTrue_found _ _ ⟨j, hj, by unfold intervalTest; rw [hnat]; rfl⟩).1
    · push_neg at h2
      exact (lastTrue_found _ _
        ⟨n - 1, by omega, intervalTest_hi_true t n k v hlen (by omega) h2⟩).1

/-- A query inside the full knot range always has its containing span, for
either extrapolate flag. -/
lemma find_intervals_range_nonneg (t : List ℚ) (k : ℕ) (v : ℚ) (e : Bool)
    (h2 : 2 ≤ t.length) (h0 : t.getD 0 0 ≤ v) (hLast : v < t.getD (t.length - 1) 0) :
    0 ≤ find_intervals t k v e := by
  obtain ⟨j, hj, hnat⟩ := exists_naturalTest t v h2 h0 hLast
  exact (lastTrue_found _ _ ⟨j, hj, by unfold intervalTest; rw [hnat]; rfl⟩).1

/-- Claim C10: in the public evaluation path, interval location on every
non-periodic axis runs with the extrapolate flag forced to true (clamping
was already applied), and in all cases — including periodic axes, whose
remapped coordinate lands inside [t[k], t[n]) — the located span is never
the -1 sentinel, so every query receives a span index before coefficient
index assembly. -/
theorem eval_span_always_found (nd md : ℕ) (S : NDSpline nd md) (i : Fin nd)
    (v : ℚ) (n : ℕ) (hs : (S.knots i).Sorted (· ≤ ·))
    (hlen : (S.knots i).length = n + S.orders i + 1) (hkn : S.orders i < n)
    (hper : S.periodic i = true →
      (S.knots i).getD (S.orders i) 0 < (S.knots i).getD n 0) :
    (S.periodic i = false → axisExtrapFlag (S.periodic i) = true) ∧
    axisEll S i v ≠ -1 := by
  constructor
  · intro h
    rw [axisExtrapFlag, h]
    rfl
  · unfold axisEll
    cases hp : S.periodic i with
    | false =>
        have hge := find_intervals_extrap_nonneg (S.knots i) n (S.orders i)
          (sTransform S i v) hs hlen hkn
        intro hcon
        show False
        rw [show axisExtrapFlag false = true from rfl] at hcon
        rw [hcon] at hge
        norm_num at hge
    | true =>
        have hL : 0 < (S.knots i).getD ((S.knots i).length - S.orders i - 1) 0 -
            (S.knots i).getD (S.orders i) 0 := by
          have hnn : (S.knots i).length - S.orders i - 1 = n := by omega
          rw [hnn]
          exact sub_pos.mpr (hper hp)
        have htr : sTransform S i v = (S.knots i).getD (S.orders i) 0 +
            pymod (v - (S.knots i).getD (S.orders i) 0)
              ((S.knots i).getD ((S.knots i).length - S.orders i - 1) 0 -
                (S.knots i).getD (S.orders i) 0) := by
          unfold sTransform axisTransform
          rw [hp]
        rcases pymod_bounds (v - (S.knots i).getD (S.orders i) 0) _ hL with ⟨hb1, hb2⟩
        have hlo : (S.knots i).getD (S.orders i) 0 ≤ sTransform S i v := by
          rw [htr]
          linarith
        have hhi : sTransform S i v <
            (S.knots i).getD ((S.knots i).length - S.orders i - 1) 0 := by
          rw [htr]
          linarith
        have h0 : (S.knots i).getD 0 0 ≤ sTransform S i v :=
          le_trans (sorted_getD_mono _ hs (Nat.zero_le _) (by omega)) hlo
        have hLast : sTransform S i v < (S.knots i).getD ((S.knots i).length - 1) 0 :=
          lt_of_lt_of_le hhi (sorted_getD_mono _ hs (by omega) (by omega))
        have hge := find_intervals_range_nonneg (S.knots i) (S.orders i)
          (sTransform S i v) (axisExtrapFlag true) (by omega) h0 hLast
        intro hcon
        rw [hcon] at hge
        norm_num at hge

/-- Witness for C10: one-axis non-periodic spline on [0,0,1,2,2] with a far
out-of-domain query 7: the flag is forced true and a span is found. -/
theorem eval_span_always_found_witness :
    let S : NDSpline 1 1 :=
      { knots := fun _ => [0, 0, 1, 2, 2], orders := fun _ => 1,
        periodic := fun _ => false, extrap := fun _ => (true, true),
        coeffs := fun _ _ => 1 }
    (S.periodic 0 = false → axisExtrapFlag (S.periodic 0) = true) ∧
    axisEll S 0 7 ≠ -1 := by
  intro S
  exact eval_span_always_found 1 1 S 0 7 3 (by norm_num [List.sorted_cons])
    (by norm_num) (by norm_num) (fun h => Bool.noConfusion h)

/-- The caller's coordinate buffer as it stands after __call__
(lines 289-295 with get_us_and_cc_sel lines 243-254): when x is already a
C-contiguous float64 array of shape (ndim, s), `x.reshape((self.ndim, -1))`
returns a view of the caller's buffer and `np.ascontiguousarray` returns it
unchanged (the `aliased` flag models exactly this precondition), so the
in-place writes `x[i,:] = ...` of the boundary policy land in the caller's
array; otherwise a private copy is mutated and the caller's array is
untouched. -/
def callXBufferAfter (aliased : Bool) {nd md : ℕ} (S : NDSpline nd md)
    (x : Fin nd → ℚ) : Fin nd → ℚ :=
  if aliased then (fun i => sTransform S i (x i)) else x

/-- Concrete two-axis evaluator for the frame-effect claim: axis 0 periodic
on [0,0,1,2,2] (domain [0,2)), axis 1 clamped above at 2. -/
def frameS : NDSpline 2 1 :=
  { knots := fun _ => [0, 0, 1, 2, 2], orders := fun _ => 1,
    periodic := fun i2 => i2.val == 0, extrap := fun _ => (true, false),
    coeffs := fun _ _ => 1 }

/-- Concrete caller coordinates: 5/2 on the periodic axis (out of the
fundamental domain), 3 on the clamped axis (beyond the upper bound 2). -/
def frameX : Fin 2 → ℚ := fun i2 => if i2.val = 0 then 5/2 else 3

/-- Claim C9: when the caller passes a C-contiguous float64 (ndim, s) array,
__call__ writes the boundary-policy results back into the caller's array:
the periodic axis coordinate 5/2 is overwritten with its remap 1/2 and the
clamped axis coordinate 3 with the boundary value 2, so the caller's array
is not left unchanged by evaluation. -/
theorem call_writes_back_into_caller_buffer :
    callXBufferAfter true frameS frameX ≠ frameX ∧
    callXBufferAfter true frameS frameX 0 = 1/2 ∧
    callXBufferAfter true frameS frameX 1 = 2 := by
  have h0 : callXBufferAfter true frameS frameX 0 = 1/2 := by
    show sTransform frameS 0 (frameX 0) = 1/2
    norm_num [sTransform, axisTransform, frameS, frameX, pymod]
  have h1 : callXBufferAfter true frameS frameX 1 = 2 := by
    show sTransform frameS 1 (frameX 1) = 2
    norm_num [sTransform, axisTransform, axisClampLo, axisClampHi, frameS, frameX]
    rfl
  refine ⟨?_, h0, h1⟩
  intro hcon
  have hx0 : frameX 0 = 5/2 := by norm_num [frameX]
  have := congrFun hcon 0
  rw [h0, hx0] at this
  norm_num at this


/-! ## Output shapes and workspace of __call__ (src/NDBPoly.py lines
205-227, 243-266, 268-279, 289-308)

Shape-level model of the whole evaluation pipeline, tracking the mutable
workspace allocations the shapes flow through.  The essential source facts:

* __init__ (line 211) allocates `uus` with shape
  (ndim, max(orders)+1, cur_max_x_size), cur_max_x_size starting at 1;
* check_workspace_shapes (line 278) reallocates `uus` with the transposed
  shape (ndim, cur_max_x_size, max(orders)+1), exactly when the batch size
  exceeds the current capacity;
* line 264 writes `uus[i, :num_points, :k+1] = ...`, a numpy
  broadcast-assignment of a (num_points, k_i+1) block into the sliced
  target — valid iff num_points fits the first axis and k_i+1 fits the
  second axis or is 1;
* line 266 returns `uus[..., :num_points]`, slicing the last axis — the
  basis axis in the reallocated layout — by the batch size;
* the einsum (lines 303-305) labels the last axis of each per-axis operand
  with that axis's coefficient label (size k_i+1, from u_ops = [..., i+1])
  and broadcasts the leading axis against the batch axis of the gathered
  coefficient block (shape (mdim, k_1+1, ..., k_ndim+1, num_points));
* lines 306-307 reshape the einsum output to (mdim,) + x_shape[1:] for
  x.ndim != 1 and to x_shape itself for 1-D x; a numpy reshape is valid
  exactly when the element counts agree.

An invalid broadcast, einsum dimension mismatch or reshape raises a
ValueError, modelled as none.  The ell_work/eval_work/cc_sel shapes never
fail (capacity is at least the batch after the check, and line 265 slices
the true batch axis of cc_sel), so they are not tracked.  Orders are
per-axis (`ks`, so `ks.length` is ndim). -/

/-- Mutable shape state of one evaluator instance: the capacity
cur_max_x_size and the trailing two dimensions of the uus allocation
(shared by all axes; the leading dimension is ndim). -/
structure CallState where
  cap : ℕ
  uusDims : ℕ × ℕ

/-- State after __init__ (lines 207, 211): capacity 1, uus trailing dims
(max(orders)+1, 1). -/
def freshCallState (ks : List ℕ) : CallState :=
  { cap := 1, uusDims := (ks.foldr max 0 + 1, 1) }

/-- check_workspace_shapes (lines 268-279): when the batch exceeds the
capacity, the capacity becomes the batch and uus is reallocated with
trailing dims (capacity, max(orders)+1) (line 278 — transposed relative to
the __init__ allocation of line 211). -/
def wsCheck (ks : List ℕ) (st : CallState) (batch : ℕ) : CallState :=
  if st.cap < batch then { cap := batch, uusDims := (batch, ks.foldr max 0 + 1) }
  else st

/-- Validity of the per-axis writes `uus[i, :s, :k+1] = ...` (line 264):
each (s, k_i+1) right-hand side must broadcast into its sliced target
(min(s, d1), min(k_i+1, d2)), i.e. s must fit the first axis and k_i+1 must
fit the second axis or be 1. -/
abbrev writeOK (ks : List ℕ) (d : ℕ × ℕ) (s : ℕ) : Prop :=
  ∀ k ∈ ks, s ≤ d.1 ∧ (k + 1 ≤ d.2 ∨ k + 1 = 1)

/-- Einsum label check (lines 303-305): line 266 returned
`uus[..., :num_points]`, so each per-axis operand's labelled last axis has
size min(s, d2), which must equal k_i+1 for every axis i. -/
abbrev einsumOK (ks : List ℕ) (d : ℕ × ℕ) (s : ℕ) : Prop :=
  ∀ k ∈ ks, min s d.2 = k + 1

/-- Numpy broadcast of two dimension sizes. -/
def bcast2 (a b : ℕ) : Option ℕ :=
  if a = b then some a else if a = 1 then some b else if b = 1 then some a else none

/-- Final reshape target (lines 306-307). -/
def reshapeTarget (md : ℕ) (xshape : List ℕ) : List ℕ :=
  if xshape.length ≠ 1 then md :: xshape.tail else xshape

/-- The pipeline from the uus writes to the final reshape, given the
post-check state st' and the batch size s: the writes of line 264, the
einsum label and ellipsis-broadcast checks (the ellipsis broadcasts the
coefficient batch axis s against the leading uus axis, giving the einsum
output (mdim, e)), and the final reshape validity. -/
def callShapeCore (md : ℕ) (ks : List ℕ) (st' : CallState) (s : ℕ)
    (xshape : List ℕ) : Option (List ℕ) :=
  if writeOK ks st'.uusDims s then
    if einsumOK ks st'.uusDims s then
      match bcast2 s st'.uusDims.1 with
      | none => none
      | some e =>
          if md * e = (reshapeTarget md xshape).prod then
            some (reshapeTarget md xshape)
          else none
    else none
  else none

/-- One __call__ (lines 289-308) at the shape level: the initial
`x.reshape((self.ndim, -1))` (line 290) needs ndim to divide the element
count; then check_workspace_shapes runs (a state mutation that persists
even when a later stage raises, matching Python) and the core pipeline
produces the output shape or raises.  Returns the output shape (none =
exception) and the state after the workspace check. -/
def callShape (md : ℕ) (ks : List ℕ) (st : CallState) (xshape : List ℕ) :
    Option (List ℕ) × CallState :=
  if ks.length = 0 ∨ ¬ (ks.length ∣ xshape.prod) then (none, st)
  else
    (callShapeCore md ks (wsCheck ks st (xshape.prod / ks.length))
      (xshape.prod / ks.length) xshape,
     wsCheck ks st (xshape.prod / ks.length))

lemma callShape_fst (md : ℕ) (ks : List ℕ) (st : CallState) (xshape : List ℕ)
    (h : ¬ (ks.length = 0 ∨ ¬ (ks.length ∣ xshape.prod))) :
    (callShape md ks st xshape).1 =
      callShapeCore md ks (wsCheck ks st (xshape.prod / ks.length))
        (xshape.prod / ks.length) xshape := by
  rw [callShape, if_neg h]

lemma replicate_foldr_max (nd k : ℕ) (h : 0 < nd) :
    (List.replicate nd k).foldr max 0 = k := by
  induction nd with
  | zero => omega
  | succ n ih =>
      rw [List.replicate_succ, List.foldr_cons]
      rcases Nat.eq_zero_or_pos n with hz | hp
      · subst hz
        show max k 0 = k
        omega
      · rw [ih hp]
        omega

/-- Under the conditions in which the pipeline actually succeeds, the
output shape is the reshape target. -/
lemma callShapeCore_success (md : ℕ) (ks : List ℕ) (cap d2 s : ℕ)
    (xshape : List ℕ) (hw : writeOK ks (s, d2) s) (he : einsumOK ks (s, d2) s)
    (hres : md * s = (reshapeTarget md xshape).prod) :
    callShapeCore md ks ⟨cap, (s, d2)⟩ s xshape = some (reshapeTarget md xshape) := by
  show (if writeOK ks (s, d2) s then
      if einsumOK ks (s, d2) s then
        match bcast2 s s with
        | none => none
        | some e =>
            if md * e = (reshapeTarget md xshape).prod then
              some (reshapeTarget md xshape)
            else none
      else none
    else none) = some (reshapeTarget md xshape)
  rw [if_pos hw, if_pos he]
  have hb : bcast2 s s = some s := by
    unfold bcast2
    rw [if_pos rfl]
  rw [hb]
  show (if md * s = (reshapeTarget md xshape).prod then
      some (reshapeTarget md xshape) else none) = some (reshapeTarget md xshape)
  rw [if_pos hres]

/-- Counterexample to claim C7 as stated: for mdim = 2, a single-axis
evaluator (ndim = 1, order 1) called with a 1-D x of shape [3] (batch
3 >= k+1, so the pipeline reaches the final reshape): the (2, 3) einsum
output cannot be reshaped to the 1-D target shape [3] (6 elements into 3),
so __call__ raises instead of returning an mdim-leading output array. -/
theorem callShape_one_dim_cex :
    (callShape 2 [1] (freshCallState [1]) [3]).1 = none := by decide

/-- Claim C7 (amended): on a freshly constructed evaluator with uniform
orders k, a first call whose coordinate array has shape ndim :: rest with
rest nonempty (x.ndim >= 2) and whose batch size s = prod(rest) satisfies
s >= 2 and s >= k+1 returns an output of shape mdim :: rest — output
dimension leading, trailing query shape preserved; under the same batch
conditions the 1-D single-axis case with mdim = 1 returns shape [s].
Outside these conditions __call__ raises: for 1-D x with mdim > 1 (the
counterexample), for any first batch of size 1 with k >= 1, for batches
below k+1, for later batches differing from the grown capacity, and for
non-uniform orders. -/
theorem callShape_spec (md nd k s : ℕ) (rest : List ℕ) (hnd : 0 < nd)
    (hr : rest ≠ []) (hs2 : 2 ≤ rest.prod) (hks : k + 1 ≤ rest.prod)
    (hs2' : 2 ≤ s) (hks' : k + 1 ≤ s) :
    (callShape md (List.replicate nd k) (freshCallState (List.replicate nd k))
      (nd :: rest)).1 = some (md :: rest) ∧
    (callShape 1 [k] (freshCallState [k]) [s]).1 = some [s] := by
  constructor
  · have hguard : ¬ ((List.replicate nd k).length = 0 ∨
        ¬ ((List.replicate nd k).length ∣ (nd :: rest).prod)) := by
      rw [List.length_replicate, List.prod_cons]
      push_neg
      exact ⟨by omega, dvd_mul_right nd rest.prod⟩
    rw [callShape_fst _ _ _ _ hguard]
    have hsdiv : (nd :: rest).prod / (List.replicate nd k).length = rest.prod := by
      rw [List.length_replicate, List.prod_cons]
      exact Nat.mul_div_cancel_left rest.prod hnd
    rw [hsdiv]
    have hws : wsCheck (List.replicate nd k)
        (freshCallState (List.replicate nd k)) rest.prod =
        ⟨rest.prod, (rest.prod, k + 1)⟩ := by
      rw [wsCheck, if_pos (show (freshCallState (List.replicate nd k)).cap < rest.prod
        from by show 1 < rest.prod; omega)]
      rw [replicate_foldr_max nd k hnd]
    rw [hws]
    have hlen1 : (nd :: rest).length ≠ 1 := by
      simp only [List.length_cons, ne_eq]
      intro hcon
      exact hr (List.length_eq_zero.mp (by omega))
    have htar : reshapeTarget md (nd :: rest) = md :: rest := by
      rw [reshapeTarget, if_pos hlen1]
      rfl
    have hw : writeOK (List.replicate nd k) (rest.prod, k + 1) rest.prod := by
      intro b hb
      rw [List.eq_of_mem_replicate hb]
      exact ⟨le_refl _, Or.inl (le_refl _)⟩
    have he : einsumOK (List.replicate nd k) (rest.prod, k + 1) rest.prod := by
      intro b hb
      rw [List.eq_of_mem_replicate hb]
      exact Nat.min_eq_right hks
    have hres : md * rest.prod = (reshapeTarget md (nd :: rest)).prod := by
      rw [htar, List.prod_cons]
    rw [callShapeCore_success md (List.replicate nd k) rest.prod (k+1) rest.prod
      (nd :: rest) hw he hres, htar]
  · have hguard : ¬ (([k] : List ℕ).length = 0 ∨
        ¬ (([k] : List ℕ).length ∣ ([s] : List ℕ).prod)) := by
      push_neg
      exact ⟨by norm_num, one_dvd _⟩
    rw [callShape_fst _ _ _ _ hguard]
    have hsdiv : ([s] : List ℕ).prod / ([k] : List ℕ).length = s := by
      rw [List.prod_singleton]
      exact Nat.div_one s
    rw [hsdiv]
    have hws : wsCheck [k] (freshCallState [k]) s = ⟨s, (s, k + 1)⟩ := by
      rw [wsCheck, if_pos (show (freshCallState [k]).cap < s from by
        show 1 < s; omega)]
      have hfold : ([k] : List ℕ).foldr max 0 = k := by
        show max k 0 = k
        omega
      rw [hfold]
    rw [hws]
    have htar : reshapeTarget 1 [s] = [s] := by
      rw [reshapeTarget, if_neg (by simp)]
    have hw : writeOK [k] (s, k + 1) s := by
      intro b hb
      rw [List.mem_singleton.mp hb]
      exact ⟨le_refl _, Or.inl (le_refl _)⟩
    have he : einsumOK [k] (s, k + 1) s := by
      intro b hb
      rw [List.mem_singleton.mp hb]
      exact Nat.min_eq_right hks'
    have hres : 1 * s = (reshapeTarget 1 [s]).prod := by
      rw [htar, List.prod_singleton, one_mul]
    rw [callShapeCore_success 1 [k] s (k+1) s [s] hw he hres, htar]

/-- Witness for the amended claim C7: a (2, 7)-shaped query batch on a
fresh 2-axis order-1 evaluator with mdim = 5 yields output shape (5, 7),
and a 1-D batch of 3 on a fresh single-axis order-1 evaluator with
mdim = 1 keeps shape [3]. -/
theorem callShape_spec_witness :
    (callShape 5 (List.replicate 2 1) (freshCallState (List.replicate 2 1))
      (2 :: [7])).1 = some (5 :: [7]) ∧
    (callShape 1 [1] (freshCallState [1]) [3]).1 = some [3] :=
  callShape_spec 5 2 1 3 [7] (by norm_num) (by norm_num) (by norm_num)
    (by norm_num) (by norm_num) (by norm_num)

/-- Claim C8 (code bug): the spec's workspace contract — evaluating batches
of size 1, then 1000, then 1 on one instance yields each batch's results,
with buffers only growing — is the clear intent (spec sections 4.3 and 8),
but the code's uus handling contradicts it: __init__ (line 211) and
check_workspace_shapes (line 278) allocate uus with mutually transposed
layouts, line 264 writes it as (batch, basis) and line 266 slices the
basis axis by the batch size.  On a one-axis evaluator of order 1: the
first batch-1 call raises ValueError at line 264 (broadcasting the (1, 2)
basis block into the (1, 1) slice of the pristine allocation) while the
capacity correctly stays 1; a batch-1000 call then succeeds and grows the
capacity to 1000; the following batch-1 call raises in the einsum (the
returned uus basis axis is sliced to length min(1, 2) = 1 against the
coefficient label of size k+1 = 2).  So no batch-1 output is ever produced
where the claim requires one. -/
theorem workspace_batch_one_raises :
    (callShape 1 [1] (freshCallState [1]) [1, 1]).1 = none ∧
    (callShape 1 [1] (freshCallState [1]) [1, 1]).2.cap = 1 ∧
    (callShape 1 [1] ((callShape 1 [1] (freshCallState [1]) [1, 1]).2) [1, 1000]).1 =
      some [1, 1000] ∧
    (callShape 1 [1] ((callShape 1 [1] (freshCallState [1]) [1, 1]).2) [1, 1000]).2.cap =
      1000 ∧
    (callShape 1 [1] ((callShape 1 [1] ((callShape 1 [1] (freshCallState [1])
      [1, 1]).2) [1, 1000]).2) [1, 1]).1 = none := by
  decide

end NDSplines
